import Mathlib

/-!
Verification of the nodeprobe registry, merge engine, polling scheduler and
retention manager.  The Lean definitions below are a shallow embedding of the
Go source: `internal/app/reporting_service.go` (NodeService),
`internal/app/polling_service.go` (PollingService),
`internal/pkg/http/client.go` (path-MTU discovery) and
`internal/pkg/sqlite/repository.go` (CleanupOldResults).  Timestamps are
modelled as natural numbers, the in-memory Go map `knownNodes` and the sqlite
`nodes` table as association lists keyed by node id, and network / clock
effects as explicit oracle parameters.
-/

/-- A peer known to this process (Go struct `domain.Node`). -/
@[ext]
structure Node where
  id : String
  fqdn : String
  ip : String
  discoveredBy : String
  firstSeen : Nat
  lastSeen : Nat
  isActive : Bool
deriving DecidableEq, Repr

/-- Payload of `GET /nodeinfo` (Go struct `domain.NodeInfo`): the reporting
node's own description plus its registry snapshot. -/
structure NodeInfo where
  id : String
  fqdn : String
  ip : String
  nodes : List Node
deriving DecidableEq, Repr

/-- A bootstrap hint (Go struct `domain.SeedNode`). -/
structure SeedNode where
  fqdn : String
  ip : String
deriving DecidableEq, Repr

/-- Lookup in a string-keyed association list; models both a Go map read and
the sqlite `SELECT ... WHERE id = ?` of `Repository.GetNode`. -/
def mapLookup (m : List (String × Node)) (k : String) : Option Node :=
  match m with
  | [] => none
  | (k', v) :: rest => if k' = k then some v else mapLookup rest k

/-- Write to a string-keyed association list, inserting the key if absent;
models a Go map assignment and the sqlite INSERT of `Repository.CreateNode`. -/
def mapInsert (m : List (String × Node)) (k : String) (v : Node) : List (String × Node) :=
  match m with
  | [] => [(k, v)]
  | (k', v') :: rest => if k' = k then (k, v) :: rest else (k', v') :: mapInsert rest k v

/-- Replace the value at a key when present, no-op when absent; models the
sqlite `UPDATE ... WHERE id = ?` of `Repository.UpdateNode` (affects zero rows
when the id is unknown). -/
def mapUpdate (m : List (String × Node)) (k : String) (v : Node) : List (String × Node) :=
  match m with
  | [] => []
  | (k', v') :: rest => if k' = k then (k, v) :: rest else (k', v') :: mapUpdate rest k v

/-- Combined state of `NodeService`: the in-memory cache `knownNodes` and the
persisted `nodes` table behind `nodeRepo`. -/
structure RegState where
  cache : List (String × Node)
  db : List (String × Node)
deriving DecidableEq, Repr

/-- `NodeService.addOrUpdateNode` with an infallible repository: look the id up
in the database; if absent, create the row as given; if present, preserve the
stored `first_seen` and update the rest; finally write the node into the
in-memory cache. -/
def addOrUpdateNode (st : RegState) (node : Node) : RegState :=
  match mapLookup st.db node.id with
  | none =>
      { cache := mapInsert st.cache node.id node
        db := mapInsert st.db node.id node }
  | some existing =>
      let node' := { node with firstSeen := existing.firstSeen }
      { cache := mapInsert st.cache node'.id node'
        db := mapUpdate st.db node'.id node' }

/-- The node upserted for the snapshot's reporting node in
`NodeService.MergeNodeInfo` (source node branch). -/
def sourceNode (info : NodeInfo) (discoveredBy : String) (now : Nat) : Node :=
  { id := info.id, fqdn := info.fqdn, ip := info.ip, discoveredBy := discoveredBy
    firstSeen := now, lastSeen := now, isActive := true }

/-- The node created for a previously unknown peer reported inside a snapshot
(`MergeNodeInfo`, `!exists` branch): provenance is the reporting node's id. -/
def freshNode (n : Node) (reportingID : String) (now : Nat) : Node :=
  { id := n.id, fqdn := n.fqdn, ip := n.ip, discoveredBy := reportingID
    firstSeen := now, lastSeen := now, isActive := true }

/-- One iteration of the loop over `nodeInfo.Nodes` in
`NodeService.MergeNodeInfo`: skip our own id; create unknown nodes; for known
nodes overwrite drifted `fqdn` / `ip` and unconditionally refresh `last_seen`. -/
def mergeOneNode (myNodeID reportingID : String) (now : Nat) (st : RegState) (n : Node) :
    RegState :=
  if n.id = myNodeID then st
  else
    match mapLookup st.cache n.id with
    | none => addOrUpdateNode st (freshNode n reportingID now)
    | some existing =>
        addOrUpdateNode st { existing with fqdn := n.fqdn, ip := n.ip, lastSeen := now }

/-- `NodeService.MergeNodeInfo`: upsert the snapshot's reporting node (when it
is not this process) with `discovered_by = discoveredBy`, then fold the loop
body over the reported node list. -/
def MergeNodeInfo (myNodeID : String) (st : RegState) (info : NodeInfo)
    (discoveredBy : String) (now : Nat) : RegState :=
  let st1 :=
    if info.id ≠ myNodeID then addOrUpdateNode st (sourceNode info discoveredBy now)
    else st
  info.nodes.foldl (mergeOneNode myNodeID info.id now) st1

/-- The deterministic id `fmt.Sprintf("seed-%s-%s", fqdn, ip)` assigned to a
seed entry in `NodeService.loadSeedNodes`. -/
def seedNodeID (s : SeedNode) : String :=
  "seed-" ++ s.fqdn ++ "-" ++ s.ip

/-- One iteration of the loop in `NodeService.loadSeedNodes`: skip our own id,
skip ids already cached, otherwise upsert a fresh seed node with
`discovered_by = "seed"`. -/
def loadOneSeed (myNodeID : String) (now : Nat) (st : RegState) (s : SeedNode) : RegState :=
  let nodeID := seedNodeID s
  if nodeID = myNodeID then st
  else
    match mapLookup st.cache nodeID with
    | some _ => st
    | none =>
        addOrUpdateNode st
          { id := nodeID, fqdn := s.fqdn, ip := s.ip, discoveredBy := "seed"
            firstSeen := now, lastSeen := now, isActive := true }

/-- `NodeService.loadSeedNodes`: fold the seed loop over the configured list. -/
def loadSeedNodes (myNodeID : String) (st : RegState) (seeds : List SeedNode) (now : Nat) :
    RegState :=
  seeds.foldl (loadOneSeed myNodeID now) st

/-- `NodeService.UpdateNodeStatus` with an infallible repository: not-found
error when the id is not cached; otherwise flip `is_active` on the cached node
and write it through.  The Go function takes no clock and leaves `last_seen`
untouched. -/
def UpdateNodeStatus (st : RegState) (nodeID : String) (isActive : Bool) :
    RegState × Option String :=
  match mapLookup st.cache nodeID with
  | none => (st, some ("node " ++ nodeID ++ " not found"))
  | some node =>
      let node' := { node with isActive := isActive }
      ({ cache := mapInsert st.cache nodeID node'
         db := mapUpdate st.db nodeID node' }, none)

/-- An operation that can reach `addOrUpdateNode`: a direct upsert, a merge of
a peer snapshot, or a seed (re)load. -/
inductive RegOp where
  | upsert (n : Node)
  | merge (info : NodeInfo) (discoveredBy : String) (now : Nat)
  | seed (seeds : List SeedNode) (now : Nat)
deriving Repr

/-- Interpret one registry operation. -/
def applyRegOp (myNodeID : String) (st : RegState) : RegOp → RegState
  | .upsert n => addOrUpdateNode st n
  | .merge info discoveredBy now => MergeNodeInfo myNodeID st info discoveredBy now
  | .seed seeds now => loadSeedNodes myNodeID st seeds now

/-- Interpret a sequence of registry operations. -/
def applyRegOps (myNodeID : String) (st : RegState) (ops : List RegOp) : RegState :=
  ops.foldl (applyRegOp myNodeID) st

/-- A gossip-only operation (merge or seed load), the operations quantified
over by the self-exclusion invariant. -/
inductive GossipOp where
  | merge (info : NodeInfo) (discoveredBy : String) (now : Nat)
  | seed (seeds : List SeedNode) (now : Nat)
deriving Repr

/-- Interpret one gossip operation. -/
def applyGossipOp (myNodeID : String) (st : RegState) : GossipOp → RegState
  | .merge info discoveredBy now => MergeNodeInfo myNodeID st info discoveredBy now
  | .seed seeds now => loadSeedNodes myNodeID st seeds now

/-- Interpret a sequence of gossip operations. -/
def applyGossipOps (myNodeID : String) (st : RegState) (ops : List GossipOp) : RegState :=
  ops.foldl (applyGossipOp myNodeID) st

/-- Failure injection for the repository calls made by `addOrUpdateNode`:
whether `GetNode`, `CreateNode` or `UpdateNode` fails on this invocation. -/
structure DbBehavior where
  getFails : Bool
  createFails : Bool
  updateFails : Bool
deriving DecidableEq, Repr

/-- `NodeService.addOrUpdateNode` with its repository errors made explicit.
Each `if ... return err` of the Go function becomes an early exit carrying the
error and leaving the state as it was at that point; the in-memory cache
assignment `ns.knownNodes[node.ID] = node` is the last statement and is only
reached when no repository call failed. -/
def addOrUpdateNodeFallible (beh : DbBehavior) (st : RegState) (node : Node) :
    RegState × Option String :=
  if beh.getFails then (st, some "failed to check existing node")
  else
    match mapLookup st.db node.id with
    | none =>
        if beh.createFails then (st, some "failed to create node")
        else
          ({ cache := mapInsert st.cache node.id node
             db := mapInsert st.db node.id node }, none)
    | some existing =>
        let node' := { node with firstSeen := existing.firstSeen }
        if beh.updateFails then (st, some "failed to update node")
        else
          ({ cache := mapInsert st.cache node'.id node'
             db := mapUpdate st.db node'.id node' }, none)

/-- The target-selection part of `PollingService.pollNextNode`: `active` is the
active node list as enumerated from the `knownNodes` map on this tick (Go map
iteration order is unspecified, so the enumeration is an input), `nodeIndex` is
the persistent rotation cursor.  Returns the probed node (none when no peer
besides ourselves is active) and the new cursor. -/
def pollNextNode (myNodeID : String) (active : List Node) (nodeIndex : Nat) :
    Option Node × Nat :=
  let filteredNodes := active.filter (fun n => n.id ≠ myNodeID)
  if filteredNodes.length = 0 then (none, nodeIndex)
  else
    let i := if filteredNodes.length ≤ nodeIndex then 0 else nodeIndex
    (filteredNodes[i]?, i + 1)

/-- Run one scheduler tick per entry of `enums`, where each entry is that
tick's enumeration of the active node list; threads the rotation cursor and
collects the probed node of each tick. -/
def runTicks (myNodeID : String) (enums : List (List Node)) (nodeIndex : Nat) :
    List (Option Node) × Nat :=
  match enums with
  | [] => ([], nodeIndex)
  | active :: rest =>
      let (probed, idx') := pollNextNode myNodeID active nodeIndex
      let (probes, idxF) := runTicks myNodeID rest idx'
      (probed :: probes, idxF)

/-- The fixed candidate payload sizes of `Client.discoverPathMTU`. -/
def mtuSizes : List Nat := [1500, 1472, 1460, 1400, 1300, 1200, 1000, 800, 576]

/-- The candidate loop of `Client.discoverPathMTU`: return the first size in
the list that transmits (`testMTUSize` is the network oracle). -/
def firstWorkingMTU (test : Nat → Bool) : List Nat → Option Nat
  | [] => none
  | m :: rest => if test m then some m else firstWorkingMTU test rest

/-- `Client.binarySearchMTU`: recursive bounded search; note that the base
case returns `low` with a nil error, so the function never fails. -/
def binarySearchMTU (test : Nat → Bool) (low high : Nat) : Except String Nat :=
  if low ≥ high then .ok low
  else
    let mid := (low + high) / 2
    if test mid then binarySearchMTU test (mid + 1) high
    else binarySearchMTU test low (mid - 1)
termination_by high + 1 - low
decreasing_by
  · simp only [not_le] at *
    omega
  · simp only [not_le] at *
    have : (low + high) / 2 ≤ high := by omega
    omega

/-- `Client.discoverPathMTU`: try the fixed candidates in order, falling back
to a binary search between 576 and 1500. -/
def discoverPathMTU (test : Nat → Bool) : Except String Nat :=
  match firstWorkingMTU test mtuSizes with
  | some mtu => .ok mtu
  | none => binarySearchMTU test 576 1500

/-- `Client.TestPathMTU`: host parsing cannot fail, so the outcome is exactly
that of `discoverPathMTU`. -/
def TestPathMTU (test : Nat → Bool) : Except String Nat :=
  discoverPathMTU test

/-- Result of one probe (Go struct `domain.PollResult`).  `pathMTU` is `none`
when the Go field was never assigned. -/
structure PollResult where
  nodeID : String
  pollTime : Nat
  success : Bool
  responseMs : Nat
  error : String
  pathMTU : Option Nat
deriving DecidableEq, Repr

/-- `PollingService.PollNode`.  Oracles: `test` drives the path-MTU probes,
`probe` is the outcome of `httpClient.GetNodeInfo`, `respMs` the measured
elapsed time.  Returns `((result, returned error), new registry state)`;
the registry changes only through `MergeNodeInfo` on probe success. -/
def PollNode (myNodeID : String) (st : RegState) (node : Node) (now : Nat)
    (respMs : Nat) (isFirstPoll : Bool) (test : Nat → Bool)
    (probe : Except String NodeInfo) : (PollResult × Option String) × RegState :=
  let result0 : PollResult :=
    { nodeID := node.id, pollTime := now, success := false, responseMs := 0
      error := "", pathMTU := none }
  let result1 :=
    if isFirstPoll then
      match TestPathMTU test with
      | .ok mtu => { result0 with pathMTU := some mtu }
      | .error _ => result0
    else result0
  match probe with
  | .error e =>
      (({ result1 with responseMs := respMs, success := false, error := e }, none), st)
  | .ok info =>
      let st' := MergeNodeInfo myNodeID st info node.id now
      (({ result1 with responseMs := respMs, success := true }, none), st')

/-- One persisted poll-history row, reduced to the fields the retention pass
reads: the `poll_time` ordering key. -/
structure PollRow where
  rowID : Nat
  pollTime : Nat
deriving DecidableEq, Repr

/-- Ordering used by `DELETE ... ORDER BY poll_time ASC LIMIT 1000`. -/
def rowOlder (a b : PollRow) : Prop := a.pollTime ≤ b.pollTime

instance : DecidableRel rowOlder := fun a b => Nat.decLe a.pollTime b.pollTime

instance : IsTotal PollRow rowOlder := ⟨fun a b => Nat.le_total a.pollTime b.pollTime⟩

instance : IsTrans PollRow rowOlder := ⟨fun _ _ _ h h' => Nat.le_trans h h'⟩

/-- The poll-history table sorted oldest-first. -/
def sortByPollTime (rows : List PollRow) : List PollRow :=
  rows.insertionSort rowOlder

/-- The Go constant `domain.MaxDatabaseSizeMB`. -/
def MaxDatabaseSizeMB : Nat := 10

/-- The deletion loop of `Repository.CleanupOldResults`: while the measured
size exceeds the budget, delete the 1000 oldest rows; break when a delete
affects no rows (the table is empty); `dbSize` models `os.Stat` on the
database file as a function of the remaining rows. -/
def cleanupLoop (dbSize : List PollRow → Nat) (maxSizeBytes : Nat) (rows : List PollRow) :
    List PollRow :=
  if dbSize rows ≤ maxSizeBytes then rows
  else if _h : rows.length = 0 then rows
  else cleanupLoop dbSize maxSizeBytes ((sortByPollTime rows).drop 1000)
termination_by rows.length
decreasing_by
  have hlen : (sortByPollTime rows).length = rows.length :=
    (List.perm_insertionSort rowOlder rows).length_eq
  simp only [List.length_drop, hlen]
  omega

/-- `Repository.CleanupOldResults`: early return when already under budget,
otherwise run the deletion loop (the concluding VACUUM does not change the row
set). -/
def CleanupOldResults (dbSize : List PollRow → Nat) (maxSizeMB : Nat)
    (rows : List PollRow) : List PollRow :=
  let maxSizeBytes := maxSizeMB * 1024 * 1024
  if dbSize rows ≤ maxSizeBytes then rows
  else cleanupLoop dbSize maxSizeBytes rows

/-! ### Association-list lemmas -/

theorem mapLookup_mapInsert_self (m : List (String × Node)) (k : String) (v : Node) :
    mapLookup (mapInsert m k v) k = some v := by
  induction m with
  | nil => simp [mapInsert, mapLookup]
  | cons p rest ih =>
      by_cases h : p.1 = k
      · simp [mapInsert, h, mapLookup]
      · simp [mapInsert, h, mapLookup, ih]

theorem mapLookup_mapInsert_ne (m : List (String × Node)) (k k' : String) (v : Node)
    (h : k ≠ k') : mapLookup (mapInsert m k v) k' = mapLookup m k' := by
  induction m with
  | nil => simp [mapInsert, mapLookup, h]
  | cons p rest ih =>
      by_cases hp : p.1 = k
      · simp [mapInsert, hp, mapLookup, h]
      · by_cases hp' : p.1 = k'
        · simp [mapInsert, hp, mapLookup, hp', h.symm]
        · simp [mapInsert, hp, mapLookup, hp', ih]

theorem mapLookup_mapUpdate_ne (m : List (String × Node)) (k k' : String) (v : Node)
    (h : k ≠ k') : mapLookup (mapUpdate m k v) k' = mapLookup m k' := by
  induction m with
  | nil => simp [mapUpdate, mapLookup]
  | cons p rest ih =>
      by_cases hp : p.1 = k
      · simp [mapUpdate, hp, mapLookup, h]
      · by_cases hp' : p.1 = k'
        · simp [mapUpdate, hp, mapLookup, hp', h.symm]
        · simp [mapUpdate, hp, mapLookup, hp', ih]

theorem mapInsert_eq_mapUpdate_of_lookup (m : List (String × Node)) (k : String)
    (v w : Node) (h : mapLookup m k = some w) : mapInsert m k v = mapUpdate m k v := by
  induction m with
  | nil => simp [mapLookup] at h
  | cons p rest ih =>
      by_cases hp : p.1 = k
      · simp [mapInsert, mapUpdate, hp]
      · simp [mapLookup, hp] at h
        simp [mapInsert, mapUpdate, hp, ih h]

/-- Preservation of a predicate along a left fold. -/
theorem foldl_pres {σ α : Type} {P : σ → Prop} {f : σ → α → σ}
    (h : ∀ s a, P s → P (f s a)) : ∀ (l : List α) (s : σ), P s → P (l.foldl f s)
  | [], _, hs => hs
  | a :: l, s, hs => foldl_pres h l (f s a) (h s a hs)

/-! ### C5: upsert behaviour on write-through failure -/

/-- C5 (counterexample): with an injected `UpdateNode` failure, the upsert of a
changed node value returns an error, but the in-memory cache still holds the
old node value, not the new one — the claim's "the in-memory Registry cache is
nevertheless updated with the new node value" is false on the code, which
returns before the cache assignment. -/
theorem c5_counterexample :
    (addOrUpdateNodeFallible ⟨false, false, true⟩
        ⟨[("a", ⟨"a", "old", "1.1.1.1", "seed", 1, 1, true⟩)],
         [("a", ⟨"a", "old", "1.1.1.1", "seed", 1, 1, true⟩)]⟩
        ⟨"a", "new", "2.2.2.2", "p1", 9, 9, true⟩).2 = some "failed to update node" ∧
    mapLookup (addOrUpdateNodeFallible ⟨false, false, true⟩
        ⟨[("a", ⟨"a", "old", "1.1.1.1", "seed", 1, 1, true⟩)],
         [("a", ⟨"a", "old", "1.1.1.1", "seed", 1, 1, true⟩)]⟩
        ⟨"a", "new", "2.2.2.2", "p1", 9, 9, true⟩).1.cache "a"
      = some ⟨"a", "old", "1.1.1.1", "seed", 1, 1, true⟩ ∧
    (⟨"a", "old", "1.1.1.1", "seed", 1, 1, true⟩ : Node)
      ≠ ⟨"a", "new", "2.2.2.2", "p1", 1, 9, true⟩ := by
  refine ⟨rfl, rfl, by decide⟩

/-- C5 (amended): whenever any repository call of `addOrUpdateNode` fails, the
operation returns an error to the caller and the whole registry state — the
in-memory cache included — is left unchanged. -/
theorem c5_upsert_failure_leaves_state_unchanged (beh : DbBehavior) (st : RegState)
    (node : Node) (h : (addOrUpdateNodeFallible beh st node).2.isSome = true) :
    (addOrUpdateNodeFallible beh st node).1 = st := by
  by_cases hg : beh.getFails
  · simp [addOrUpdateNodeFallible, hg]
  · cases hdb : mapLookup st.db node.id with
    | none =>
        by_cases hc : beh.createFails
        · simp [addOrUpdateNodeFallible, hg, hdb, hc]
        · simp [addOrUpdateNodeFallible, hg, hdb, hc] at h
    | some existing =>
        by_cases hu : beh.updateFails
        · simp [addOrUpdateNodeFallible, hg, hdb, hu]
        · simp [addOrUpdateNodeFallible, hg, hdb, hu] at h

/-- C5 (witness): the amended theorem applied at a concrete failing upsert. -/
theorem c5_witness :
    (addOrUpdateNodeFallible ⟨false, false, true⟩
        ⟨[("b", ⟨"b", "f", "i", "seed", 2, 2, true⟩)],
         [("b", ⟨"b", "f", "i", "seed", 2, 2, true⟩)]⟩
        ⟨"b", "g", "j", "p2", 7, 7, false⟩).1
      = ⟨[("b", ⟨"b", "f", "i", "seed", 2, 2, true⟩)],
         [("b", ⟨"b", "f", "i", "seed", 2, 2, true⟩)]⟩ :=
  c5_upsert_failure_leaves_state_unchanged ⟨false, false, true⟩
    ⟨[("b", ⟨"b", "f", "i", "seed", 2, 2, true⟩)],
     [("b", ⟨"b", "f", "i", "seed", 2, 2, true⟩)]⟩
    ⟨"b", "g", "j", "p2", 7, 7, false⟩ (by decide)

/-! ### C9: setActive / UpdateNodeStatus -/

/-- C9 (counterexample): flipping liveness on a known node leaves `last_seen`
exactly at its old value (5), refuting the claim that `setActive` "also
updates that node's last_seen timestamp" — the Go function takes no clock and
never writes that field. -/
theorem c9_counterexample :
    (mapLookup (UpdateNodeStatus
        ⟨[("a", ⟨"a", "f", "i", "seed", 5, 5, false⟩)],
         [("a", ⟨"a", "f", "i", "seed", 5, 5, false⟩)]⟩ "a" true).1.cache "a").map
        Node.lastSeen = some 5 ∧
    (mapLookup (UpdateNodeStatus
        ⟨[("a", ⟨"a", "f", "i", "seed", 5, 5, false⟩)],
         [("a", ⟨"a", "f", "i", "seed", 5, 5, false⟩)]⟩ "a" true).1.cache "a").map
        Node.isActive = some true := by
  exact ⟨rfl, rfl⟩

/-- C9 (amended): `UpdateNodeStatus st id b` fails with a not-found error and
leaves the state unchanged when `id` is unknown; when `id` is known it
succeeds, stores the node with `is_active = b`, leaves `last_seen` unchanged,
and touches no other entry. -/
theorem c9_update_node_status_spec (st : RegState) (nodeID : String) (isActive : Bool) :
    (mapLookup st.cache nodeID = none →
      UpdateNodeStatus st nodeID isActive = (st, some ("node " ++ nodeID ++ " not found"))) ∧
    (∀ v, mapLookup st.cache nodeID = some v →
      (UpdateNodeStatus st nodeID isActive).2 = none ∧
      mapLookup (UpdateNodeStatus st nodeID isActive).1.cache nodeID
        = some { v with isActive := isActive } ∧
      (mapLookup (UpdateNodeStatus st nodeID isActive).1.cache nodeID).map Node.lastSeen
        = some v.lastSeen ∧
      (∀ k, k ≠ nodeID → mapLookup (UpdateNodeStatus st nodeID isActive).1.cache k
        = mapLookup st.cache k)) := by
  constructor
  · intro h
    simp [UpdateNodeStatus, h]
  · intro v hv
    refine ⟨by simp [UpdateNodeStatus, hv], ?_, ?_, ?_⟩
    · simp [UpdateNodeStatus, hv, mapLookup_mapInsert_self]
    · simp [UpdateNodeStatus, hv, mapLookup_mapInsert_self]
    · intro k hk
      simp only [UpdateNodeStatus, hv]
      exact mapLookup_mapInsert_ne st.cache nodeID k _ (Ne.symm hk)

/-- C9 (witness): the amended theorem applied at a concrete known node. -/
theorem c9_witness :
    (UpdateNodeStatus ⟨[("c", ⟨"c", "f", "i", "seed", 4, 6, true⟩)],
        [("c", ⟨"c", "f", "i", "seed", 4, 6, true⟩)]⟩ "c" false).2 = none ∧
    mapLookup (UpdateNodeStatus ⟨[("c", ⟨"c", "f", "i", "seed", 4, 6, true⟩)],
        [("c", ⟨"c", "f", "i", "seed", 4, 6, true⟩)]⟩ "c" false).1.cache "c"
      = some ⟨"c", "f", "i", "seed", 4, 6, false⟩ := by
  have h := (c9_update_node_status_spec
    ⟨[("c", ⟨"c", "f", "i", "seed", 4, 6, true⟩)],
     [("c", ⟨"c", "f", "i", "seed", 4, 6, true⟩)]⟩ "c" false).2
    ⟨"c", "f", "i", "seed", 4, 6, true⟩ rfl
  exact ⟨h.1, h.2.1⟩

/-! ### C10: PollNode error contract -/

/-- C10: for every completed probe outcome, `PollNode` returns a nil error to
its caller; a failed probe is reported only through the `PollResult`, with
`success = false` and the failure reason in its `error` field, and a
successful probe yields `success = true`. -/
theorem c10_poll_node_never_errors (myNodeID : String) (st : RegState) (node : Node)
    (now respMs : Nat) (isFirstPoll : Bool) (test : Nat → Bool)
    (probe : Except String NodeInfo) :
    (PollNode myNodeID st node now respMs isFirstPoll test probe).1.2 = none ∧
    (∀ e, probe = .error e →
      (PollNode myNodeID st node now respMs isFirstPoll test probe).1.1.success = false ∧
      (PollNode myNodeID st node now respMs isFirstPoll test probe).1.1.error = e) ∧
    (∀ info, probe = .ok info →
      (PollNode myNodeID st node now respMs isFirstPoll test probe).1.1.success = true) := by
  cases probe with
  | error e => simp [PollNode]
  | ok info => simp [PollNode]

/-- C10 (witness): the theorem applied at a concrete timed-out probe. -/
theorem c10_witness :
    (PollNode "me" ⟨[], []⟩ ⟨"a", "f", "i", "seed", 1, 1, true⟩ 3 30000 false
        (fun _ => true) (Except.error "request timed out")).1.2 = none ∧
    (PollNode "me" ⟨[], []⟩ ⟨"a", "f", "i", "seed", 1, 1, true⟩ 3 30000 false
        (fun _ => true) (Except.error "request timed out")).1.1.success = false := by
  have h := c10_poll_node_never_errors "me" ⟨[], []⟩ ⟨"a", "f", "i", "seed", 1, 1, true⟩
    3 30000 false (fun _ => true) (Except.error "request timed out")
  exact ⟨h.1, (h.2.1 "request timed out" rfl).1⟩

/-! ### C3: reporting-node upsert in MergeNodeInfo -/

/-- C3 (code behaviour at the failing input): the registry already knows node
`p` with `discovered_by = "seed"`; merging a snapshot whose reporting node is
`p` (source id `"report"`) re-upserts `p` and overwrites its provenance with
`"report"`, because the code guards the source-node upsert only by
`nodeInfo.ID != myNodeID` and not by the "not already known" check its own
comment announces. -/
theorem c3_merge_overwrites_provenance_of_known_reporting_node :
    mapLookup (MergeNodeInfo "me"
        ⟨[("p", ⟨"p", "old.example", "10.0.0.1", "seed", 1, 1, false⟩)],
         [("p", ⟨"p", "old.example", "10.0.0.1", "seed", 1, 1, false⟩)]⟩
        ⟨"p", "new.example", "10.0.0.2", []⟩ "report" 5).cache "p"
      = some ⟨"p", "new.example", "10.0.0.2", "report", 1, 5, true⟩ := by
  rfl

/-! ### Well-keyed maps -/

/-- Every entry of the map is stored under its node's id; true of every map the
service builds, since all writes key by `node.ID`. -/
def WellKeyed (m : List (String × Node)) : Prop := ∀ p ∈ m, p.1 = p.2.id

theorem wellKeyed_mapInsert (m : List (String × Node)) (k : String) (v : Node)
    (hm : WellKeyed m) (hv : v.id = k) : WellKeyed (mapInsert m k v) := by
  induction m with
  | nil =>
      intro p hp
      simp [mapInsert] at hp
      simp [hp, hv]
  | cons q rest ih =>
      intro p hp
      by_cases hq : q.1 = k
      · simp [mapInsert, hq] at hp
        rcases hp with hp | hp
        · simp [hp, hv]
        · exact hm p (List.mem_cons_of_mem q hp)
      · simp [mapInsert, hq] at hp
        rcases hp with hp | hp
        · exact hm p (hp ▸ List.mem_cons_self q rest)
        · exact ih (fun r hr => hm r (List.mem_cons_of_mem q hr)) p hp

theorem wellKeyed_mapUpdate (m : List (String × Node)) (k : String) (v : Node)
    (hm : WellKeyed m) (hv : v.id = k) : WellKeyed (mapUpdate m k v) := by
  induction m with
  | nil => intro p hp; simp [mapUpdate] at hp
  | cons q rest ih =>
      intro p hp
      by_cases hq : q.1 = k
      · simp [mapUpdate, hq] at hp
        rcases hp with hp | hp
        · simp [hp, hv]
        · exact hm p (List.mem_cons_of_mem q hp)
      · simp [mapUpdate, hq] at hp
        rcases hp with hp | hp
        · exact hm p (hp ▸ List.mem_cons_self q rest)
        · exact ih (fun r hr => hm r (List.mem_cons_of_mem q hr)) p hp

theorem mapLookup_wellKeyed (m : List (String × Node)) (k : String) (v : Node)
    (hm : WellKeyed m) (h : mapLookup m k = some v) : v.id = k := by
  induction m with
  | nil => simp [mapLookup] at h
  | cons q rest ih =>
      by_cases hq : q.1 = k
      · simp [mapLookup, hq] at h
        have := hm q (List.mem_cons_self q rest)
        rw [← h, ← this, hq]
      · simp [mapLookup, hq] at h
        exact ih (fun r hr => hm r (List.mem_cons_of_mem q hr)) h

/-! ### C6: self-exclusion -/

/-- The registry state is well-keyed and holds no entry for this process. -/
def SelfFree (myNodeID : String) (st : RegState) : Prop :=
  WellKeyed st.cache ∧ WellKeyed st.db ∧
  mapLookup st.cache myNodeID = none ∧ mapLookup st.db myNodeID = none

theorem addOrUpdateNode_selfFree (myNodeID : String) (st : RegState) (n : Node)
    (hn : n.id ≠ myNodeID) (h : SelfFree myNodeID st) :
    SelfFree myNodeID (addOrUpdateNode st n) := by
  obtain ⟨hwc, hwd, hc, hd⟩ := h
  cases hdb : mapLookup st.db n.id with
  | none =>
      refine ⟨?_, ?_, ?_, ?_⟩ <;> simp only [addOrUpdateNode, hdb]
      · exact wellKeyed_mapInsert st.cache n.id n hwc rfl
      · exact wellKeyed_mapInsert st.db n.id n hwd rfl
      · rw [mapLookup_mapInsert_ne st.cache n.id myNodeID n hn]; exact hc
      · rw [mapLookup_mapInsert_ne st.db n.id myNodeID n hn]; exact hd
  | some existing =>
      refine ⟨?_, ?_, ?_, ?_⟩ <;> simp only [addOrUpdateNode, hdb]
      · exact wellKeyed_mapInsert st.cache n.id _ hwc rfl
      · exact wellKeyed_mapUpdate st.db n.id _ hwd rfl
      · rw [mapLookup_mapInsert_ne st.cache n.id myNodeID _ hn]; exact hc
      · rw [mapLookup_mapUpdate_ne st.db n.id myNodeID _ hn]; exact hd

theorem mergeOneNode_selfFree (myNodeID reportingID : String) (now : Nat) (st : RegState)
    (n : Node) (h : SelfFree myNodeID st) :
    SelfFree myNodeID (mergeOneNode myNodeID reportingID now st n) := by
  by_cases hn : n.id = myNodeID
  · simpa [mergeOneNode, hn] using h
  · cases hl : mapLookup st.cache n.id with
    | none =>
        simpa [mergeOneNode, hn, hl] using
          addOrUpdateNode_selfFree myNodeID st (freshNode n reportingID now) hn h
    | some existing =>
        have hid : existing.id = n.id := mapLookup_wellKeyed st.cache n.id existing h.1 hl
        have hne : ({ existing with fqdn := n.fqdn, ip := n.ip, lastSeen := now } : Node).id
            ≠ myNodeID := by
          simpa [hid] using hn
        simpa [mergeOneNode, hn, hl] using
          addOrUpdateNode_selfFree myNodeID st _ hne h

theorem MergeNodeInfo_selfFree (myNodeID : String) (st : RegState) (info : NodeInfo)
    (discoveredBy : String) (now : Nat) (h : SelfFree myNodeID st) :
    SelfFree myNodeID (MergeNodeInfo myNodeID st info discoveredBy now) := by
  unfold MergeNodeInfo
  refine foldl_pres (fun s n hs => mergeOneNode_selfFree myNodeID info.id now s n hs)
    info.nodes _ ?_
  by_cases hsrc : info.id ≠ myNodeID
  · simpa [hsrc] using
      addOrUpdateNode_selfFree myNodeID st (sourceNode info discoveredBy now) hsrc h
  · simpa [hsrc] using h

theorem loadOneSeed_selfFree (myNodeID : String) (now : Nat) (st : RegState) (s : SeedNode)
    (h : SelfFree myNodeID st) : SelfFree myNodeID (loadOneSeed myNodeID now st s) := by
  by_cases hs : seedNodeID s = myNodeID
  · simpa [loadOneSeed, hs] using h
  · cases hl : mapLookup st.cache (seedNodeID s) with
    | some existing => simpa [loadOneSeed, hs, hl] using h
    | none =>
        simpa [loadOneSeed, hs, hl] using
          addOrUpdateNode_selfFree myNodeID st _ (by simpa using hs) h

/-- C6: starting from any well-keyed state that does not contain this
process's own id, no sequence of merges and seed loads ever introduces an
entry for the own id, in the cache or in the database (self-exclusion). -/
theorem c6_self_exclusion (myNodeID : String) (st : RegState) (ops : List GossipOp)
    (hwc : WellKeyed st.cache) (hwd : WellKeyed st.db)
    (hc : mapLookup st.cache myNodeID = none) (hd : mapLookup st.db myNodeID = none) :
    mapLookup (applyGossipOps myNodeID st ops).cache myNodeID = none ∧
    mapLookup (applyGossipOps myNodeID st ops).db myNodeID = none := by
  have h : SelfFree myNodeID (applyGossipOps myNodeID st ops) := by
    refine foldl_pres (fun s op hs => ?_) ops st ⟨hwc, hwd, hc, hd⟩
    cases op with
    | merge info discoveredBy now => exact MergeNodeInfo_selfFree myNodeID s info _ now hs
    | seed seeds now =>
        exact foldl_pres (fun s' sd hs' => loadOneSeed_selfFree myNodeID now s' sd hs')
          seeds s hs
  exact ⟨h.2.2.1, h.2.2.2⟩

/-- C6 (witness): the theorem applied to a concrete gossip history whose
snapshot even lists the own node id. -/
theorem c6_witness :
    mapLookup (applyGossipOps "me" ⟨[], []⟩
        [GossipOp.merge ⟨"p", "p.example", "10.0.0.7",
            [⟨"me", "self.example", "10.0.0.1", "x", 0, 0, true⟩,
             ⟨"q", "q.example", "10.0.0.8", "x", 0, 0, true⟩]⟩ "src" 3,
         GossipOp.seed [⟨"a.example", "10.0.0.9"⟩] 4]).cache "me" = none := by
  exact (c6_self_exclusion "me" ⟨[], []⟩ _
    (by intro p hp; simp at hp) (by intro p hp; simp at hp) rfl rfl).1

/-! ### C1: first_seen immutability -/

/-- Cache and database agree (every operation of the service writes both with
the same value, so reachable states satisfy this), and the cache holds `id`
with first-seen timestamp `fs`. -/
def FirstSeenInv (id : String) (fs : Nat) (st : RegState) : Prop :=
  st.cache = st.db ∧ ∃ v, mapLookup st.cache id = some v ∧ v.firstSeen = fs

theorem addOrUpdateNode_coherent (st : RegState) (n : Node) (h : st.cache = st.db) :
    (addOrUpdateNode st n).cache = (addOrUpdateNode st n).db := by
  cases hdb : mapLookup st.db n.id with
  | none => simp only [addOrUpdateNode, hdb, h]
  | some existing =>
      simp only [addOrUpdateNode, hdb]
      rw [h]
      exact mapInsert_eq_mapUpdate_of_lookup st.db n.id _ existing hdb

theorem addOrUpdateNode_fsInv (id : String) (fs : Nat) (st : RegState) (n : Node)
    (h : FirstSeenInv id fs st) : FirstSeenInv id fs (addOrUpdateNode st n) := by
  obtain ⟨hcoh, v, hv, hfs⟩ := h
  refine ⟨addOrUpdateNode_coherent st n hcoh, ?_⟩
  by_cases hid : n.id = id
  · have hdb : mapLookup st.db n.id = some v := by rw [← hcoh, hid]; exact hv
    refine ⟨{ n with firstSeen := v.firstSeen }, ?_, hfs⟩
    simp only [addOrUpdateNode, hdb]
    rw [← hid]
    exact mapLookup_mapInsert_self st.cache n.id _
  · cases hdb : mapLookup st.db n.id with
    | none =>
        refine ⟨v, ?_, hfs⟩
        simp only [addOrUpdateNode, hdb]
        rw [mapLookup_mapInsert_ne st.cache n.id id n hid]
        exact hv
    | some existing =>
        refine ⟨v, ?_, hfs⟩
        simp only [addOrUpdateNode, hdb]
        rw [mapLookup_mapInsert_ne st.cache n.id id _ hid]
        exact hv

theorem mergeOneNode_fsInv (id : String) (fs : Nat) (myNodeID reportingID : String)
    (now : Nat) (st : RegState) (n : Node) (h : FirstSeenInv id fs st) :
    FirstSeenInv id fs (mergeOneNode myNodeID reportingID now st n) := by
  by_cases hn : n.id = myNodeID
  · simpa [mergeOneNode, hn] using h
  · cases hl : mapLookup st.cache n.id with
    | none => simpa [mergeOneNode, hn, hl] using addOrUpdateNode_fsInv id fs st _ h
    | some existing => simpa [mergeOneNode, hn, hl] using addOrUpdateNode_fsInv id fs st _ h

theorem loadOneSeed_fsInv (id : String) (fs : Nat) (myNodeID : String) (now : Nat)
    (st : RegState) (s : SeedNode) (h : FirstSeenInv id fs st) :
    FirstSeenInv id fs (loadOneSeed myNodeID now st s) := by
  by_cases hs : seedNodeID s = myNodeID
  · simpa [loadOneSeed, hs] using h
  · cases hl : mapLookup st.cache (seedNodeID s) with
    | some existing => simpa [loadOneSeed, hs, hl] using h
    | none => simpa [loadOneSeed, hs, hl] using addOrUpdateNode_fsInv id fs st _ h

theorem applyRegOp_fsInv (id : String) (fs : Nat) (myNodeID : String) (st : RegState)
    (op : RegOp) (h : FirstSeenInv id fs st) :
    FirstSeenInv id fs (applyRegOp myNodeID st op) := by
  cases op with
  | upsert n => exact addOrUpdateNode_fsInv id fs st n h
  | merge info discoveredBy now =>
      unfold applyRegOp MergeNodeInfo
      refine foldl_pres (fun s m hs => mergeOneNode_fsInv id fs myNodeID info.id now s m hs)
        info.nodes _ ?_
      by_cases hsrc : info.id ≠ myNodeID
      · simpa [hsrc] using addOrUpdateNode_fsInv id fs st _ h
      · simpa [hsrc] using h
  | seed seeds now =>
      exact foldl_pres (fun s sd hs => loadOneSeed_fsInv id fs myNodeID now s sd hs)
        seeds st h

/-- C1: once a node id is present in the Registry with a given `first_seen`
timestamp, any sequence of direct upserts, merges and seed loads leaves the id
present with exactly that `first_seen` value. -/
theorem c1_first_seen_immutable (myNodeID id : String) (st : RegState) (v : Node)
    (ops : List RegOp) (hcoh : st.cache = st.db)
    (hv : mapLookup st.cache id = some v) :
    ∃ v', mapLookup (applyRegOps myNodeID st ops).cache id = some v' ∧
      v'.firstSeen = v.firstSeen := by
  have h : FirstSeenInv id v.firstSeen (applyRegOps myNodeID st ops) :=
    foldl_pres (fun s op hs => applyRegOp_fsInv id v.firstSeen myNodeID s op hs)
      ops st ⟨hcoh, v, hv, rfl⟩
  exact h.2

/-- C1 (witness): the theorem applied to a concrete history that re-upserts
node `a` directly, via a merge and via a seed load; its `first_seen` stays 3. -/
theorem c1_witness :
    ∃ v', mapLookup (applyRegOps "me"
        ⟨[("a", ⟨"a", "a.example", "10.0.0.1", "seed", 3, 3, true⟩)],
         [("a", ⟨"a", "a.example", "10.0.0.1", "seed", 3, 3, true⟩)]⟩
        [RegOp.upsert ⟨"a", "b.example", "10.0.0.2", "p1", 8, 8, true⟩,
         RegOp.merge ⟨"a", "c.example", "10.0.0.3",
            [⟨"a", "d.example", "10.0.0.4", "x", 0, 0, true⟩]⟩ "src" 9,
         RegOp.seed [⟨"e.example", "10.0.0.5"⟩] 11]).cache "a" = some v' ∧
      v'.firstSeen = 3 :=
  c1_first_seen_immutable "me" "a"
    ⟨[("a", ⟨"a", "a.example", "10.0.0.1", "seed", 3, 3, true⟩)],
     [("a", ⟨"a", "a.example", "10.0.0.1", "seed", 3, 3, true⟩)]⟩
    ⟨"a", "a.example", "10.0.0.1", "seed", 3, 3, true⟩ _ rfl rfl

/-! ### C7: path-MTU discovery -/

theorem firstWorkingMTU_first (test : Nat → Bool) (pre : List Nat) (m : Nat)
    (post : List Nat) (hpre : ∀ x ∈ pre, test x = false) (hm : test m = true) :
    firstWorkingMTU test (pre ++ m :: post) = some m := by
  induction pre with
  | nil => simp [firstWorkingMTU, hm]
  | cons a pre ih =>
      have ha : test a = false := hpre a (List.mem_cons_self a pre)
      simp only [List.cons_append, firstWorkingMTU, ha]
      exact ih (fun x hx => hpre x (List.mem_cons_of_mem a hx))

theorem firstWorkingMTU_allFail (test : Nat → Bool) (l : List Nat)
    (hfail : ∀ x ∈ l, test x = false) : firstWorkingMTU test l = none := by
  induction l with
  | nil => rfl
  | cons a l ih =>
      have ha : test a = false := hfail a (List.mem_cons_self a l)
      simp only [firstWorkingMTU, ha]
      exact ih (fun x hx => hfail x (List.mem_cons_of_mem a hx))

theorem binarySearchMTU_ok (test : Nat → Bool) (low high : Nat) :
    ∃ v, binarySearchMTU test low high = .ok v ∧ low ≤ v ∧ v ≤ max low high := by
  induction low, high using binarySearchMTU.induct test with
  | case1 low high h =>
      exact ⟨low, by rw [binarySearchMTU]; simp [h], le_refl low, le_max_left _ _⟩
  | case2 low high h mid hcond ih =>
      obtain ⟨v, hv, hlo, hhi⟩ := ih
      refine ⟨v, ?_, ?_, ?_⟩
      · rw [binarySearchMTU, if_neg h]
        simp only []
        rw [if_pos hcond]
        exact hv
      · simp only [mid] at hlo
        omega
      · simp only [not_le] at h
        simp only [mid] at hhi
        rcases max_cases ((low + high) / 2 + 1) high with ⟨heq, _⟩ | ⟨heq, _⟩ <;>
          rcases max_cases low high with ⟨heq2, _⟩ | ⟨heq2, _⟩ <;> omega
  | case3 low high h mid hcond ih =>
      obtain ⟨v, hv, hlo, hhi⟩ := ih
      refine ⟨v, ?_, hlo, ?_⟩
      · rw [binarySearchMTU, if_neg h]
        simp only []
        rw [if_neg hcond]
        exact hv
      · simp only [not_le] at h
        simp only [mid] at hhi
        have hmid : (low + high) / 2 ≤ high := by omega
        rcases max_cases low ((low + high) / 2 - 1) with ⟨heq, _⟩ | ⟨heq, _⟩ <;>
          rcases max_cases low high with ⟨heq2, _⟩ | ⟨heq2, _⟩ <;> omega

theorem binarySearchMTU_allFail (test : Nat → Bool) (hfail : ∀ m, test m = false) :
    ∀ low high, binarySearchMTU test low high = .ok low := by
  intro low high
  induction low, high using binarySearchMTU.induct test with
  | case1 low high h => rw [binarySearchMTU]; simp [h]
  | case2 low high h mid hcond ih =>
      rw [hfail] at hcond
      exact absurd hcond (by simp)
  | case3 low high h mid hcond ih =>
      rw [binarySearchMTU, if_neg h]
      simp only []
      rw [if_neg hcond]
      exact ih

theorem discoverPathMTU_allFail (test : Nat → Bool) (hfail : ∀ m, test m = false) :
    TestPathMTU test = Except.ok 576 := by
  unfold TestPathMTU discoverPathMTU
  rw [firstWorkingMTU_allFail test mtuSizes (fun x _ => hfail x)]
  exact binarySearchMTU_allFail test hfail 576 1500

/-- C7 (counterexample): with a network on which no payload size at all
transmits (`test` constantly false), the first poll of a node still records a
path capacity — `PollResult.pathMTU = some 576` — because the binary-search
fallback returns its lower bound with a nil error; the claim's "the
path-capacity value is left unset rather than recorded" is false on the code. -/
theorem c7_counterexample :
    (PollNode "me" ⟨[], []⟩ ⟨"a", "f", "i", "seed", 1, 1, true⟩ 2 100 true
        (fun _ => false) (Except.error "connection refused")).1.1.pathMTU
      = some 576 := by
  have h : TestPathMTU (fun _ => false) = Except.ok 576 :=
    discoverPathMTU_allFail (fun _ => false) (fun _ => rfl)
  simp [PollNode, h]

/-- C7 (amended): path discovery tries the fixed candidates 1500, 1472, 1460,
1400, 1300, 1200, 1000, 800, 576 in order and returns the first that
transmits; if every candidate fails it falls back to a binary search whose
result lies between 576 and 1500; and when no payload size transmits at all,
the discovery does not fail — it returns the lower bound 576, which is then
recorded as the path capacity. -/
theorem c7_path_discovery (test : Nat → Bool) :
    (∀ pre m post, mtuSizes = pre ++ m :: post → (∀ x ∈ pre, test x = false) →
      test m = true → discoverPathMTU test = Except.ok m) ∧
    (firstWorkingMTU test mtuSizes = none →
      ∃ v, discoverPathMTU test = Except.ok v ∧ 576 ≤ v ∧ v ≤ 1500) ∧
    ((∀ m, test m = false) → TestPathMTU test = Except.ok 576) := by
  refine ⟨?_, ?_, discoverPathMTU_allFail test⟩
  · intro pre m post hsplit hpre hm
    unfold discoverPathMTU
    rw [hsplit, firstWorkingMTU_first test pre m post hpre hm]
  · intro hnone
    unfold discoverPathMTU
    rw [hnone]
    obtain ⟨v, hv, hlo, hhi⟩ := binarySearchMTU_ok test 576 1500
    exact ⟨v, hv, hlo, by simpa using hhi⟩

/-- C7 (witness): the amended theorem applied at a concrete network oracle:
discovery reports 1472 when 1500 fails but 1472 transmits. -/
theorem c7_witness :
    discoverPathMTU (fun n => n == 1472) = Except.ok 1472 :=
  (c7_path_discovery (fun n => n == 1472)).1 [1500] 1472
    [1460, 1400, 1300, 1200, 1000, 800, 576] rfl (by decide) (by decide)

/-! ### C8: retention manager -/

theorem sortByPollTime_sorted (rows : List PollRow) :
    (sortByPollTime rows).Sorted rowOlder :=
  List.sorted_insertionSort rowOlder rows

theorem sortByPollTime_of_sorted (rows : List PollRow) (h : rows.Sorted rowOlder) :
    sortByPollTime rows = rows :=
  h.insertionSort_eq

theorem cleanupLoop_post (dbSize : List PollRow → Nat) (maxSizeBytes : Nat)
    (rows : List PollRow) :
    (dbSize (cleanupLoop dbSize maxSizeBytes rows) ≤ maxSizeBytes ∨
      cleanupLoop dbSize maxSizeBytes rows = []) ∧
    (cleanupLoop dbSize maxSizeBytes rows = rows ∨
      ∃ k, 0 < k ∧ cleanupLoop dbSize maxSizeBytes rows
        = (sortByPollTime rows).drop (1000 * k)) := by
  induction rows using cleanupLoop.induct dbSize maxSizeBytes with
  | case1 rows h =>
      rw [cleanupLoop, if_pos h]
      exact ⟨Or.inl h, Or.inl rfl⟩
  | case2 rows h hlen =>
      rw [cleanupLoop, if_neg h, dif_pos hlen]
      exact ⟨Or.inr (List.length_eq_zero.mp hlen), Or.inl rfl⟩
  | case3 rows h hlen ih =>
      rw [cleanupLoop, if_neg h, dif_neg hlen]
      refine ⟨ih.1, ?_⟩
      have hsorted : ((sortByPollTime rows).drop 1000).Sorted rowOlder :=
        (sortByPollTime_sorted rows).sublist (List.drop_sublist 1000 (sortByPollTime rows))
      rcases ih.2 with heq | ⟨k, hk, heq⟩
      · exact Or.inr ⟨1, Nat.one_pos, by simpa using heq⟩
      · rw [sortByPollTime_of_sorted _ hsorted] at heq
        rw [List.drop_drop] at heq
        exact Or.inr ⟨k + 1, Nat.succ_pos k, by rw [heq]; ring_nf⟩

/-- C8: one run of `CleanupOldResults` with the configured 10 MB budget ends
with the measured poll-history size at most the budget, or with every
poll-history row deleted; and the surviving rows are exactly the time-sorted
table with some whole number of oldest-first batches of 1000 rows removed from
the front. -/
theorem c8_retention_budget_or_empty (dbSize : List PollRow → Nat) (rows : List PollRow) :
    (dbSize (CleanupOldResults dbSize MaxDatabaseSizeMB rows)
        ≤ MaxDatabaseSizeMB * 1024 * 1024 ∨
      CleanupOldResults dbSize MaxDatabaseSizeMB rows = []) ∧
    (CleanupOldResults dbSize MaxDatabaseSizeMB rows = rows ∨
      ∃ k, 0 < k ∧ CleanupOldResults dbSize MaxDatabaseSizeMB rows
        = (sortByPollTime rows).drop (1000 * k)) := by
  have hcl : CleanupOldResults dbSize MaxDatabaseSizeMB rows =
      if dbSize rows ≤ MaxDatabaseSizeMB * 1024 * 1024 then rows
      else cleanupLoop dbSize (MaxDatabaseSizeMB * 1024 * 1024) rows := rfl
  by_cases h : dbSize rows ≤ MaxDatabaseSizeMB * 1024 * 1024
  · rw [hcl, if_pos h]
    exact ⟨Or.inl h, Or.inl rfl⟩
  · rw [hcl, if_neg h]
    exact cleanupLoop_post dbSize (MaxDatabaseSizeMB * 1024 * 1024) rows

/-! ### C4: round-robin scheduling -/

theorem range_map_getElem {α : Type} (l : List α) :
    (List.range l.length).map (fun k => l[k]?) = l.map some := by
  induction l with
  | nil => rfl
  | cons a l ih =>
      rw [List.length_cons, List.range_succ_eq_map, List.map_cons, List.map_map]
      have hh : ((fun k => (a :: l)[k]?) ∘ Nat.succ) = fun k => l[k]? := by
        funext k
        simp
      rw [hh, ih]
      simp

theorem range_map_mod_rotate {α : Type} (l : List α) (c : Nat) (hc : c < l.length) :
    (List.range l.length).map (fun k => l[(c + k) % l.length]?) = (l.rotate c).map some := by
  have hranges : List.range l.length
      = List.range (l.length - c) ++ (List.range c).map (fun x => l.length - c + x) := by
    rw [← List.range_add, Nat.sub_add_cancel hc.le]
  rw [List.rotate_eq_drop_append_take hc.le, List.map_append, hranges, List.map_append,
    List.map_map]
  refine congrArg₂ _ ?_ ?_
  · have h1 : ∀ k ∈ List.range (l.length - c),
        l[(c + k) % l.length]? = (l.drop c)[k]? := by
      intro k hk
      rw [List.mem_range] at hk
      rw [Nat.mod_eq_of_lt (by omega), List.getElem?_drop]
    rw [List.map_congr_left h1]
    have h2 : (l.drop c).length = l.length - c := List.length_drop c l
    calc (List.range (l.length - c)).map (fun k => (l.drop c)[k]?)
        = (List.range (l.drop c).length).map (fun k => (l.drop c)[k]?) := by rw [h2]
      _ = (l.drop c).map some := range_map_getElem (l.drop c)
  · have h1 : ∀ j ∈ List.range c,
        ((fun k => l[(c + k) % l.length]?) ∘ (fun x => l.length - c + x)) j
          = (l.take c)[j]? := by
      intro j hj
      rw [List.mem_range] at hj
      simp only [Function.comp]
      have hnj : c + (l.length - c + j) = l.length + j := by omega
      rw [hnj, Nat.add_mod_left, Nat.mod_eq_of_lt (by omega),
        List.getElem?_take_of_lt hj]
    rw [List.map_congr_left h1]
    have h2 : (l.take c).length = c := by
      rw [List.length_take]
      omega
    calc (List.range c).map (fun j => (l.take c)[j]?)
        = (List.range (l.take c).length).map (fun j => (l.take c)[j]?) := by rw [h2]
      _ = (l.take c).map some := range_map_getElem (l.take c)

theorem runTicks_replicate (myNodeID : String) (l : List Node) :
    ∀ (m s : Nat), 0 < (l.filter (fun n => n.id ≠ myNodeID)).length →
      (runTicks myNodeID (List.replicate m l) s).1
        = (List.range m).map (fun k =>
            (l.filter (fun n => n.id ≠ myNodeID))[((if (l.filter (fun n => n.id ≠ myNodeID)).length ≤ s then 0 else s) + k)
              % (l.filter (fun n => n.id ≠ myNodeID)).length]?) := by
  intro m
  induction m with
  | zero => intro s _; rfl
  | succ m ih =>
      intro s hF
      have hF0 : ¬ (l.filter (fun n => n.id ≠ myNodeID)).length = 0 := by omega
      set F := l.filter (fun n => n.id ≠ myNodeID) with hFdef
      set i := if F.length ≤ s then 0 else s with hidef
      have hi : i < F.length := by
        rw [hidef]
        split <;> omega
      have hstep : runTicks myNodeID (List.replicate (m + 1) l) s
          = ((F[i]? :: (runTicks myNodeID (List.replicate m l) (i + 1)).1),
             (runTicks myNodeID (List.replicate m l) (i + 1)).2) := by
        rw [List.replicate_succ]
        simp only [runTicks, pollNextNode, ← hFdef, hF0, if_false, ← hidef]
      rw [hstep]
      show F[i]? :: (runTicks myNodeID (List.replicate m l) (i + 1)).1 = _
      have hclamp : (if F.length ≤ i + 1 then 0 else i + 1) = (i + 1) % F.length := by
        split
        · have hieq : i + 1 = F.length := by omega
          rw [hieq, Nat.mod_self]
        · rw [Nat.mod_eq_of_lt (by omega)]
      have htail := ih (i + 1) hF
      rw [hclamp] at htail
      rw [htail, List.range_succ_eq_map, List.map_cons, List.map_map]
      refine congrArg₂ _ ?_ ?_
      · rw [Nat.add_zero, Nat.mod_eq_of_lt hi]
      · refine (List.map_congr_left ?_).symm
        intro k _
        simp only [Function.comp]
        rw [Nat.mod_add_mod]
        have harith : i + Nat.succ k = i + 1 + k := by omega
        rw [harith]

/-- C4 (counterexample): two active peers `a`, `b` besides self, no liveness
or membership change, two consecutive ticks — but the two ticks enumerate the
unordered `knownNodes` map in different orders (`[a, b]` then `[b, a]`, both
enumerations of the same set), and the scheduler probes `a` twice while `b` is
never probed, refuting round-robin completeness as claimed. -/
theorem c4_counterexample :
    (runTicks "me"
        [[⟨"a", "a.example", "10.0.0.1", "seed", 1, 1, true⟩,
          ⟨"b", "b.example", "10.0.0.2", "seed", 2, 2, true⟩],
         [⟨"b", "b.example", "10.0.0.2", "seed", 2, 2, true⟩,
          ⟨"a", "a.example", "10.0.0.1", "seed", 1, 1, true⟩]] 0).1
      = [some ⟨"a", "a.example", "10.0.0.1", "seed", 1, 1, true⟩,
         some ⟨"a", "a.example", "10.0.0.1", "seed", 1, 1, true⟩] ∧
    ¬ (some ⟨"b", "b.example", "10.0.0.2", "seed", 2, 2, true⟩ ∈ (runTicks "me"
        [[⟨"a", "a.example", "10.0.0.1", "seed", 1, 1, true⟩,
          ⟨"b", "b.example", "10.0.0.2", "seed", 2, 2, true⟩],
         [⟨"b", "b.example", "10.0.0.2", "seed", 2, 2, true⟩,
          ⟨"a", "a.example", "10.0.0.1", "seed", 1, 1, true⟩]] 0).1) := by
  exact ⟨rfl, by decide⟩

/-- C4 (amended): when every tick enumerates the active peers in the same
order, N consecutive scheduler ticks (N the number of active peers excluding
self) probe exactly the rotation of that stable peer list that starts at the
clamped cursor — every active peer excluding self is probed exactly once, in a
stable order. -/
theorem c4_round_robin_stable_order (myNodeID : String) (l : List Node) (s : Nat)
    (h : 0 < (l.filter (fun n => n.id ≠ myNodeID)).length) :
    (runTicks myNodeID
        (List.replicate (l.filter (fun n => n.id ≠ myNodeID)).length l) s).1
      = ((l.filter (fun n => n.id ≠ myNodeID)).rotate
          (if (l.filter (fun n => n.id ≠ myNodeID)).length ≤ s then 0 else s)).map some ∧
    List.Perm
      ((runTicks myNodeID
          (List.replicate (l.filter (fun n => n.id ≠ myNodeID)).length l) s).1)
      ((l.filter (fun n => n.id ≠ myNodeID)).map some) := by
  have heq := runTicks_replicate myNodeID l (l.filter (fun n => n.id ≠ myNodeID)).length s h
  have hc : (if (l.filter (fun n => n.id ≠ myNodeID)).length ≤ s then 0 else s)
      < (l.filter (fun n => n.id ≠ myNodeID)).length := by
    split <;> omega
  have hrot := range_map_mod_rotate (l.filter (fun n => n.id ≠ myNodeID))
    (if (l.filter (fun n => n.id ≠ myNodeID)).length ≤ s then 0 else s) hc
  refine ⟨heq.trans hrot, ?_⟩
  rw [heq, hrot]
  exact (List.rotate_perm _ _).map some

/-- C4 (witness): the amended theorem at two concrete active peers and cursor
0: the two ticks probe `a` then `b`, each exactly once. -/
theorem c4_witness :
    (runTicks "me"
        (List.replicate (([⟨"a", "a.example", "10.0.0.1", "seed", 1, 1, true⟩,
            ⟨"b", "b.example", "10.0.0.2", "seed", 2, 2, true⟩] : List Node).filter
              (fun n => n.id ≠ "me")).length
          [⟨"a", "a.example", "10.0.0.1", "seed", 1, 1, true⟩,
           ⟨"b", "b.example", "10.0.0.2", "seed", 2, 2, true⟩]) 0).1
      = [some ⟨"a", "a.example", "10.0.0.1", "seed", 1, 1, true⟩,
         some ⟨"b", "b.example", "10.0.0.2", "seed", 2, 2, true⟩] := by
  have h := (c4_round_robin_stable_order "me"
    [⟨"a", "a.example", "10.0.0.1", "seed", 1, 1, true⟩,
     ⟨"b", "b.example", "10.0.0.2", "seed", 2, 2, true⟩] 0 (by decide)).1
  exact h.trans (by decide)

/-! ### C2: merge idempotence modulo recency

Reachable service states keep `knownNodes` and the `nodes` table equal (every
write goes to both), so `MergeNodeInfo` on a coherent state acts like one map
transformer; the following single-map model and reduction lemmas make that
precise, and the idempotence argument is carried out on the single map. -/

/-- `addOrUpdateNode` as a transformer of one map (cache = database). -/
def mAddOrUpdate (m : List (String × Node)) (node : Node) : List (String × Node) :=
  match mapLookup m node.id with
  | none => mapInsert m node.id node
  | some existing => mapInsert m node.id { node with firstSeen := existing.firstSeen }

/-- The merge loop body as a transformer of one map. -/
def mMergeOne (myNodeID reportingID : String) (now : Nat) (m : List (String × Node))
    (n : Node) : List (String × Node) :=
  if n.id = myNodeID then m
  else
    match mapLookup m n.id with
    | none => mAddOrUpdate m (freshNode n reportingID now)
    | some existing =>
        mAddOrUpdate m { existing with fqdn := n.fqdn, ip := n.ip, lastSeen := now }

/-- `MergeNodeInfo` as a transformer of one map. -/
def mMerge (myNodeID : String) (m : List (String × Node)) (info : NodeInfo)
    (discoveredBy : String) (now : Nat) : List (String × Node) :=
  let m1 :=
    if info.id ≠ myNodeID then mAddOrUpdate m (sourceNode info discoveredBy now)
    else m
  info.nodes.foldl (mMergeOne myNodeID info.id now) m1

theorem addOrUpdateNode_red (st : RegState) (n : Node) (h : st.cache = st.db) :
    addOrUpdateNode st n = ⟨mAddOrUpdate st.cache n, mAddOrUpdate st.cache n⟩ := by
  cases hdb : mapLookup st.db n.id with
  | none =>
      have hdb' : mapLookup st.cache n.id = none := by rw [h]; exact hdb
      simp only [addOrUpdateNode, hdb, mAddOrUpdate, hdb', h]
  | some existing =>
      have hdb' : mapLookup st.cache n.id = some existing := by rw [h]; exact hdb
      simp only [addOrUpdateNode, hdb, mAddOrUpdate, hdb']
      refine congrArg₂ RegState.mk ?_ ?_
      · rw [h]
      · rw [h]
        exact (mapInsert_eq_mapUpdate_of_lookup st.db n.id _ existing hdb).symm

theorem mergeOneNode_red (myNodeID reportingID : String) (now : Nat) (st : RegState)
    (n : Node) (h : st.cache = st.db) :
    mergeOneNode myNodeID reportingID now st n
      = ⟨mMergeOne myNodeID reportingID now st.cache n,
         mMergeOne myNodeID reportingID now st.cache n⟩ := by
  by_cases hn : n.id = myNodeID
  · simp only [mergeOneNode, mMergeOne, hn, if_true]
    exact congrArg (RegState.mk st.cache) h.symm
  · cases hl : mapLookup st.cache n.id with
    | none =>
        simp only [mergeOneNode, mMergeOne, hn, if_false, hl]
        exact addOrUpdateNode_red st _ h
    | some existing =>
        simp only [mergeOneNode, mMergeOne, hn, if_false, hl]
        exact addOrUpdateNode_red st _ h

theorem mergeFold_red (myNodeID reportingID : String) (now : Nat) :
    ∀ (L : List Node) (st : RegState), st.cache = st.db →
      L.foldl (mergeOneNode myNodeID reportingID now) st
        = ⟨L.foldl (mMergeOne myNodeID reportingID now) st.cache,
           L.foldl (mMergeOne myNodeID reportingID now) st.cache⟩
  | [], st, h => by
      simp only [List.foldl_nil]
      exact congrArg (RegState.mk st.cache) h.symm
  | n :: L, st, h => by
      simp only [List.foldl_cons]
      rw [mergeOneNode_red myNodeID reportingID now st n h]
      exact mergeFold_red myNodeID reportingID now L _ rfl

theorem MergeNodeInfo_red (myNodeID : String) (st : RegState) (info : NodeInfo)
    (discoveredBy : String) (now : Nat) (h : st.cache = st.db) :
    MergeNodeInfo myNodeID st info discoveredBy now
      = ⟨mMerge myNodeID st.cache info discoveredBy now,
         mMerge myNodeID st.cache info discoveredBy now⟩ := by
  unfold MergeNodeInfo mMerge
  by_cases hsrc : info.id ≠ myNodeID
  · rw [if_pos hsrc, if_pos hsrc, addOrUpdateNode_red st _ h]
    exact mergeFold_red myNodeID info.id now info.nodes
      ⟨mAddOrUpdate st.cache (sourceNode info discoveredBy now),
       mAddOrUpdate st.cache (sourceNode info discoveredBy now)⟩ rfl
  · rw [if_neg hsrc, if_neg hsrc]
    exact mergeFold_red myNodeID info.id now info.nodes st h

theorem mAddOrUpdate_wellKeyed (m : List (String × Node)) (n : Node)
    (hm : WellKeyed m) : WellKeyed (mAddOrUpdate m n) := by
  cases hl : mapLookup m n.id with
  | none =>
      simp only [mAddOrUpdate, hl]
      exact wellKeyed_mapInsert m n.id n hm rfl
  | some existing =>
      simp only [mAddOrUpdate, hl]
      exact wellKeyed_mapInsert m n.id _ hm rfl

theorem mAddOrUpdate_frame (m : List (String × Node)) (n : Node) (k : String)
    (hk : k ≠ n.id) : mapLookup (mAddOrUpdate m n) k = mapLookup m k := by
  cases hl : mapLookup m n.id with
  | none =>
      simp only [mAddOrUpdate, hl]
      exact mapLookup_mapInsert_ne m n.id k n (Ne.symm hk)
  | some existing =>
      simp only [mAddOrUpdate, hl]
      exact mapLookup_mapInsert_ne m n.id k _ (Ne.symm hk)

theorem mAddOrUpdate_lookup_self (m : List (String × Node)) (n : Node) :
    mapLookup (mAddOrUpdate m n) n.id
      = some (match mapLookup m n.id with
          | none => n
          | some v => { n with firstSeen := v.firstSeen }) := by
  cases hl : mapLookup m n.id with
  | none =>
      simp only [mAddOrUpdate, hl]
      exact mapLookup_mapInsert_self m n.id n
  | some existing =>
      simp only [mAddOrUpdate, hl]
      exact mapLookup_mapInsert_self m n.id _

theorem mMergeOne_wellKeyed (myNodeID reportingID : String) (now : Nat)
    (m : List (String × Node)) (n : Node) (hm : WellKeyed m) :
    WellKeyed (mMergeOne myNodeID reportingID now m n) := by
  by_cases hn : n.id = myNodeID
  · simpa [mMergeOne, hn] using hm
  · cases hl : mapLookup m n.id with
    | none => simpa [mMergeOne, hn, hl] using mAddOrUpdate_wellKeyed m _ hm
    | some existing => simpa [mMergeOne, hn, hl] using mAddOrUpdate_wellKeyed m _ hm

theorem mMergeOne_frame (myNodeID reportingID : String) (now : Nat)
    (m : List (String × Node)) (n : Node) (k : String) (hm : WellKeyed m)
    (hk : k ≠ n.id) :
    mapLookup (mMergeOne myNodeID reportingID now m n) k = mapLookup m k := by
  by_cases hn : n.id = myNodeID
  · simp [mMergeOne, hn]
  · cases hl : mapLookup m n.id with
    | none =>
        simp only [mMergeOne, hn, if_false, hl]
        exact mAddOrUpdate_frame m _ k hk
    | some existing =>
        have hid : existing.id = n.id := mapLookup_wellKeyed m n.id existing hm hl
        simp only [mMergeOne, hn, if_false, hl]
        refine mAddOrUpdate_frame m _ k ?_
        show k ≠ existing.id
        rw [hid]
        exact hk

/-- The value the merge loop leaves at a node id: field drift plus `last_seen`
refresh when the id was present, a freshly discovered node otherwise. -/
def mergeLoopResult (reportingID : String) (now : Nat) (prev : Option Node) (n : Node) :
    Node :=
  match prev with
  | some v => { v with fqdn := n.fqdn, ip := n.ip, lastSeen := now }
  | none => freshNode n reportingID now

theorem mMergeOne_lookup_self (myNodeID reportingID : String) (now : Nat)
    (m : List (String × Node)) (n : Node) (hm : WellKeyed m) (hn : n.id ≠ myNodeID) :
    mapLookup (mMergeOne myNodeID reportingID now m n) n.id
      = some (mergeLoopResult reportingID now (mapLookup m n.id) n) := by
  cases hl : mapLookup m n.id with
  | none =>
      simp only [mMergeOne, hn, if_false, hl]
      have h := mAddOrUpdate_lookup_self m (freshNode n reportingID now)
      simp only [freshNode] at h ⊢
      rw [h, hl]
      rfl
  | some existing =>
      have hid : existing.id = n.id := mapLookup_wellKeyed m n.id existing hm hl
      have hl' : mapLookup m existing.id = some existing := by rw [hid]; exact hl
      simp only [mMergeOne, hn, if_false, hl]
      have h := mAddOrUpdate_lookup_self m
        { existing with fqdn := n.fqdn, ip := n.ip, lastSeen := now }
      rw [hl'] at h
      rw [← hid, h]
      rfl

/-- The last node with id `k` in a snapshot's list — the occurrence whose
fields win after the merge loop. -/
def lastOcc (k : String) : List Node → Option Node
  | [] => none
  | n :: L =>
      match lastOcc k L with
      | some m => some m
      | none => if n.id = k then some n else none

theorem lastOcc_cons_some (k : String) (n n' : Node) (L : List Node)
    (ho : lastOcc k L = some n') : lastOcc k (n :: L) = some n' := by
  simp [lastOcc, ho]

theorem lastOcc_cons_none (k : String) (n : Node) (L : List Node)
    (ho : lastOcc k L = none) :
    lastOcc k (n :: L) = if n.id = k then some n else none := by
  simp [lastOcc, ho]

theorem lastOcc_id (k : String) : ∀ (L : List Node) (n : Node),
    lastOcc k L = some n → n.id = k := by
  intro L
  induction L with
  | nil => intro n h; simp [lastOcc] at h
  | cons n0 L ih =>
      intro n h
      cases ho : lastOcc k L with
      | some m =>
          rw [lastOcc_cons_some k n0 m L ho] at h
          exact ih n (by rw [ho, ← h])
      | none =>
          rw [lastOcc_cons_none k n0 L ho] at h
          by_cases hn0 : n0.id = k
          · rw [if_pos hn0] at h
            cases h
            exact hn0
          · rw [if_neg hn0] at h
            cases h

theorem mergeFold_wellKeyed (myNodeID reportingID : String) (now : Nat) (L : List Node)
    (m : List (String × Node)) (hm : WellKeyed m) :
    WellKeyed (L.foldl (mMergeOne myNodeID reportingID now) m) :=
  foldl_pres (fun s n hs => mMergeOne_wellKeyed myNodeID reportingID now s n hs) L m hm

theorem mergeFold_lookup (myNodeID reportingID : String) (now : Nat) (k : String)
    (hk : k ≠ myNodeID) :
    ∀ (L : List Node) (m : List (String × Node)), WellKeyed m →
      mapLookup (L.foldl (mMergeOne myNodeID reportingID now) m) k
        = (match lastOcc k L with
            | none => mapLookup m k
            | some n => some (mergeLoopResult reportingID now (mapLookup m k) n)) := by
  intro L
  induction L with
  | nil => intro m _; simp [lastOcc]
  | cons n L ih =>
      intro m hm
      rw [List.foldl_cons]
      by_cases hn : n.id = myNodeID
      · have hkn : k ≠ n.id := by rw [hn]; exact hk
        have hskip : mMergeOne myNodeID reportingID now m n = m := by
          simp [mMergeOne, hn]
        rw [hskip]
        cases ho : lastOcc k L with
        | none =>
            rw [lastOcc_cons_none k n L ho, if_neg (fun h => hkn h.symm)]
            have := ih m hm
            rw [ho] at this
            exact this
        | some n' =>
            rw [lastOcc_cons_some k n n' L ho]
            have := ih m hm
            rw [ho] at this
            exact this
      · by_cases hkn : k = n.id
        · subst hkn
          have hself := mMergeOne_lookup_self myNodeID reportingID now m n hm hn
          have hwk' := mMergeOne_wellKeyed myNodeID reportingID now m n hm
          have hih := ih (mMergeOne myNodeID reportingID now m n) hwk'
          cases ho : lastOcc n.id L with
          | none =>
              rw [ho] at hih
              rw [hih, hself, lastOcc_cons_none n.id n L ho, if_pos rfl]
          | some n' =>
              have hn'id : n'.id = n.id := lastOcc_id n.id L n' ho
              rw [ho] at hih
              rw [hih, hself, lastOcc_cons_some n.id n n' L ho]
              cases hm0 : mapLookup m n.id with
              | some v => simp [mergeLoopResult, hm0]
              | none =>
                  simp only [mergeLoopResult, hm0, freshNode]
                  simp [hn'id]
        · have hframe := mMergeOne_frame myNodeID reportingID now m n k hm hkn
          have hwk' := mMergeOne_wellKeyed myNodeID reportingID now m n hm
          have hih := ih (mMergeOne myNodeID reportingID now m n) hwk'
          cases ho : lastOcc k L with
          | none =>
              rw [ho] at hih
              rw [hih, hframe, lastOcc_cons_none k n L ho, if_neg (fun h => hkn h.symm)]
          | some n' =>
              rw [ho] at hih
              rw [hih, hframe, lastOcc_cons_some k n n' L ho]

theorem mergeFold_lookup_self (myNodeID reportingID : String) (now : Nat) :
    ∀ (L : List Node) (m : List (String × Node)), WellKeyed m →
      mapLookup (L.foldl (mMergeOne myNodeID reportingID now) m) myNodeID
        = mapLookup m myNodeID := by
  intro L
  induction L with
  | nil => intro m _; rfl
  | cons n L ih =>
      intro m hm
      rw [List.foldl_cons]
      by_cases hn : n.id = myNodeID
      · have hskip : mMergeOne myNodeID reportingID now m n = m := by
          simp [mMergeOne, hn]
        rw [hskip]
        exact ih m hm
      · have hframe := mMergeOne_frame myNodeID reportingID now m n myNodeID hm
          (fun h => hn h.symm)
        rw [ih (mMergeOne myNodeID reportingID now m n)
          (mMergeOne_wellKeyed myNodeID reportingID now m n hm), hframe]

theorem lastOcc_none_iff_any (k : String) (L : List Node) :
    lastOcc k L = none ↔ L.any (fun n => n.id == k) = false := by
  induction L with
  | nil => simp [lastOcc]
  | cons n L ih =>
      cases ho : lastOcc k L with
      | some n' =>
          rw [lastOcc_cons_some k n n' L ho]
          have hany : L.any (fun n => n.id == k) = true := by
            cases hb : L.any (fun n => n.id == k) with
            | true => rfl
            | false =>
                rw [ih.mpr hb] at ho
                exact Option.noConfusion ho
          simp [List.any_cons, hany]
      | none =>
          rw [lastOcc_cons_none k n L ho]
          by_cases hn : n.id = k
          · simp [List.any_cons, hn]
          · simp [List.any_cons, hn, ih.mp ho]

theorem mMerge_eq_pos (myNodeID : String) (M : List (String × Node)) (info : NodeInfo)
    (discoveredBy : String) (t : Nat) (hsrc : info.id ≠ myNodeID) :
    mMerge myNodeID M info discoveredBy t
      = info.nodes.foldl (mMergeOne myNodeID info.id t)
          (mAddOrUpdate M (sourceNode info discoveredBy t)) := by
  unfold mMerge
  rw [if_pos hsrc]

theorem mMerge_eq_neg (myNodeID : String) (M : List (String × Node)) (info : NodeInfo)
    (discoveredBy : String) (t : Nat) (hsrc : ¬ info.id ≠ myNodeID) :
    mMerge myNodeID M info discoveredBy t
      = info.nodes.foldl (mMergeOne myNodeID info.id t) M := by
  unfold mMerge
  rw [if_neg hsrc]

theorem mMerge_wellKeyed (myNodeID : String) (M : List (String × Node)) (info : NodeInfo)
    (discoveredBy : String) (t : Nat) (h : WellKeyed M) :
    WellKeyed (mMerge myNodeID M info discoveredBy t) := by
  by_cases hsrc : info.id ≠ myNodeID
  · rw [mMerge_eq_pos myNodeID M info discoveredBy t hsrc]
    exact mergeFold_wellKeyed myNodeID info.id t info.nodes _
      (mAddOrUpdate_wellKeyed M _ h)
  · rw [mMerge_eq_neg myNodeID M info discoveredBy t hsrc]
    exact mergeFold_wellKeyed myNodeID info.id t info.nodes M h

theorem mMerge_lookup_self (myNodeID : String) (M : List (String × Node)) (info : NodeInfo)
    (discoveredBy : String) (t : Nat) (h : WellKeyed M) :
    mapLookup (mMerge myNodeID M info discoveredBy t) myNodeID
      = mapLookup M myNodeID := by
  by_cases hsrc : info.id ≠ myNodeID
  · rw [mMerge_eq_pos myNodeID M info discoveredBy t hsrc,
      mergeFold_lookup_self myNodeID info.id t info.nodes _
        (mAddOrUpdate_wellKeyed M _ h)]
    exact mAddOrUpdate_frame M _ myNodeID (Ne.symm hsrc)
  · rw [mMerge_eq_neg myNodeID M info discoveredBy t hsrc]
    exact mergeFold_lookup_self myNodeID info.id t info.nodes M h

/-- What the source-node upsert step of the merge leaves at key `k`. -/
def sourceStepLookup (myNodeID : String) (info : NodeInfo) (discoveredBy : String)
    (t : Nat) (prev : Option Node) (k : String) : Option Node :=
  if info.id ≠ myNodeID ∧ k = info.id then
    some (match prev with
      | none => sourceNode info discoveredBy t
      | some v => { sourceNode info discoveredBy t with firstSeen := v.firstSeen })
  else prev

theorem mMerge_lookup (myNodeID : String) (M : List (String × Node)) (info : NodeInfo)
    (discoveredBy : String) (t : Nat) (k : String) (h : WellKeyed M)
    (hk : k ≠ myNodeID) :
    mapLookup (mMerge myNodeID M info discoveredBy t) k
      = (match lastOcc k info.nodes with
          | none => sourceStepLookup myNodeID info discoveredBy t (mapLookup M k) k
          | some n => some (mergeLoopResult info.id t
              (sourceStepLookup myNodeID info discoveredBy t (mapLookup M k) k) n)) := by
  by_cases hsrc : info.id ≠ myNodeID
  · rw [mMerge_eq_pos myNodeID M info discoveredBy t hsrc,
      mergeFold_lookup myNodeID info.id t k hk info.nodes _
        (mAddOrUpdate_wellKeyed M _ h)]
    by_cases hkr : k = info.id
    · have h1 := mAddOrUpdate_lookup_self M (sourceNode info discoveredBy t)
      rw [show (sourceNode info discoveredBy t).id = info.id from rfl] at h1
      rw [← hkr] at h1
      have hsl : mapLookup (mAddOrUpdate M (sourceNode info discoveredBy t)) k
          = sourceStepLookup myNodeID info discoveredBy t (mapLookup M k) k := by
        rw [h1]
        unfold sourceStepLookup
        rw [if_pos ⟨hsrc, hkr⟩]
        rw [hkr]
        exact rfl
      rw [hsl]
    · have hfr : mapLookup (mAddOrUpdate M (sourceNode info discoveredBy t)) k
          = mapLookup M k := mAddOrUpdate_frame M _ k hkr
      have hssl : sourceStepLookup myNodeID info discoveredBy t (mapLookup M k) k
          = mapLookup M k := by
        unfold sourceStepLookup
        rw [if_neg (fun hc => hkr hc.2)]
      rw [hfr, hssl]
  · rw [mMerge_eq_neg myNodeID M info discoveredBy t hsrc,
      mergeFold_lookup myNodeID info.id t k hk info.nodes M h]
    have hssl : sourceStepLookup myNodeID info discoveredBy t (mapLookup M k) k
        = mapLookup M k := by
      unfold sourceStepLookup
      rw [if_neg (fun hc => hsrc hc.1)]
    rw [hssl]

/-- Whether the merge of `info` writes (and so refreshes `last_seen` at) key
`k`: the reporting node's own id, or any id listed in the snapshot, except
this process's id. -/
def touchedBy (info : NodeInfo) (myNodeID k : String) : Bool :=
  (k != myNodeID) && (info.id == k || info.nodes.any (fun n => n.id == k))

theorem mergeLoopResult_twice (rid1 rid2 : String) (t1 t2 : Nat)
    (prev : Option Node) (n : Node) :
    mergeLoopResult rid2 t2 (some (mergeLoopResult rid1 t1 prev n)) n
      = { mergeLoopResult rid1 t1 prev n with lastSeen := t2 } := by
  cases prev <;> rfl

theorem mMerge_idempotent (myNodeID : String) (M : List (String × Node)) (info : NodeInfo)
    (discoveredBy : String) (t1 t2 : Nat) (hm : WellKeyed M) (k : String) :
    mapLookup (mMerge myNodeID (mMerge myNodeID M info discoveredBy t1)
        info discoveredBy t2) k
      = (mapLookup (mMerge myNodeID M info discoveredBy t1) k).map
          (fun v => if touchedBy info myNodeID k then { v with lastSeen := t2 } else v) := by
  have hM1wk : WellKeyed (mMerge myNodeID M info discoveredBy t1) :=
    mMerge_wellKeyed myNodeID M info discoveredBy t1 hm
  by_cases hkmy : k = myNodeID
  · rw [hkmy, mMerge_lookup_self myNodeID _ info discoveredBy t2 hM1wk]
    cases mapLookup (mMerge myNodeID M info discoveredBy t1) myNodeID <;> simp [touchedBy]
  · rw [mMerge_lookup myNodeID _ info discoveredBy t2 k hM1wk hkmy,
      mMerge_lookup myNodeID M info discoveredBy t1 k hm hkmy]
    by_cases hkr : k = info.id
    · have hsrc : info.id ≠ myNodeID := by rw [← hkr]; exact hkmy
      have htouch : touchedBy info myNodeID info.id = true := by
        simp [touchedBy, hsrc]
      cases ho : lastOcc k info.nodes with
      | none =>
          cases hm0 : mapLookup M k with
          | none => simp [sourceStepLookup, hsrc, hkr, htouch, sourceNode]
          | some v => simp [sourceStepLookup, hsrc, hkr, htouch, sourceNode]
      | some n' =>
          cases hm0 : mapLookup M k with
          | none => simp [sourceStepLookup, hsrc, hkr, htouch, sourceNode, mergeLoopResult]
          | some v => simp [sourceStepLookup, hsrc, hkr, htouch, sourceNode, mergeLoopResult]
    · have hink : ¬ info.id = k := fun h => hkr h.symm
      have hssl1 : sourceStepLookup myNodeID info discoveredBy t1 (mapLookup M k) k
          = mapLookup M k := by
        unfold sourceStepLookup
        rw [if_neg (fun hc => hkr hc.2)]
      have hssl2 : ∀ p, sourceStepLookup myNodeID info discoveredBy t2 p k = p := by
        intro p
        unfold sourceStepLookup
        rw [if_neg (fun hc => hkr hc.2)]
      cases ho : lastOcc k info.nodes with
      | none =>
          have hany := (lastOcc_none_iff_any k info.nodes).mp ho
          have htouch : touchedBy info myNodeID k = false := by
            simp [touchedBy, hany, hink]
          simp only []
          rw [hssl1, hssl2]
          cases mapLookup M k <;> simp [htouch]
      | some n' =>
          have hany : info.nodes.any (fun n => n.id == k) = true := by
            cases hb : info.nodes.any (fun n => n.id == k) with
            | true => rfl
            | false =>
                rw [(lastOcc_none_iff_any k info.nodes).mpr hb] at ho
                exact Option.noConfusion ho
          have htouch : touchedBy info myNodeID k = true := by
            simp [touchedBy, hkmy, hany]
          simp only []
          rw [hssl1, hssl2, mergeLoopResult_twice]
          simp [htouch]

/-- C2: on a coherent, well-keyed registry state (cache = database, entries
keyed by their node's id — true of every reachable state), applying the same
snapshot to the Merge Engine twice with the same source id yields, at every
key, the same Registry content as applying it once, except that the
`last_seen` of every id the snapshot touches advances to the second
application's time. -/
theorem c2_merge_idempotent_modulo_last_seen (myNodeID : String) (st : RegState)
    (info : NodeInfo) (discoveredBy : String) (t1 t2 : Nat)
    (hcoh : st.cache = st.db) (hwk : WellKeyed st.cache) (k : String) :
    mapLookup (MergeNodeInfo myNodeID (MergeNodeInfo myNodeID st info discoveredBy t1)
        info discoveredBy t2).cache k
      = (mapLookup (MergeNodeInfo myNodeID st info discoveredBy t1).cache k).map
          (fun v => if touchedBy info myNodeID k then { v with lastSeen := t2 } else v) := by
  rw [MergeNodeInfo_red myNodeID st info discoveredBy t1 hcoh]
  rw [MergeNodeInfo_red myNodeID
    ⟨mMerge myNodeID st.cache info discoveredBy t1,
     mMerge myNodeID st.cache info discoveredBy t1⟩ info discoveredBy t2 rfl]
  exact mMerge_idempotent myNodeID st.cache info discoveredBy t1 t2 hwk k

/-- C2 (witness): the theorem applied to a concrete empty registry and a
snapshot from `p` listing `q`; the second merge leaves `q` as after the first
merge with `last_seen` advanced to 9. -/
theorem c2_witness :
    mapLookup (MergeNodeInfo "me" (MergeNodeInfo "me" ⟨[], []⟩
        ⟨"p", "p.example", "10.0.0.7",
          [⟨"q", "q.example", "10.0.0.8", "x", 0, 0, true⟩]⟩ "src" 3)
        ⟨"p", "p.example", "10.0.0.7",
          [⟨"q", "q.example", "10.0.0.8", "x", 0, 0, true⟩]⟩ "src" 9).cache "q"
      = (mapLookup (MergeNodeInfo "me" ⟨[], []⟩
          ⟨"p", "p.example", "10.0.0.7",
            [⟨"q", "q.example", "10.0.0.8", "x", 0, 0, true⟩]⟩ "src" 3).cache "q").map
          (fun v => if touchedBy ⟨"p", "p.example", "10.0.0.7",
              [⟨"q", "q.example", "10.0.0.8", "x", 0, 0, true⟩]⟩ "me" "q"
            then { v with lastSeen := 9 } else v) :=
  c2_merge_idempotent_modulo_last_seen "me" ⟨[], []⟩
    ⟨"p", "p.example", "10.0.0.7", [⟨"q", "q.example", "10.0.0.8", "x", 0, 0, true⟩]⟩
    "src" 3 9 rfl (by intro p hp; simp at hp) "q"
